import Mathlib

/-!
Verification model of the writ command-line decoding engine.

The Go sources are embedded shallowly:

* Go strings are Lean `String` (a structure over `List Char`, matching
  Go's rune-oriented operations used here: `strings.HasPrefix`,
  `strings.TrimPrefix`, `strings.SplitN`).
* Decoders mutate an external destination; here the destination is an
  explicit state of type `σ` threaded through every call, and a decoder
  is a function `String → σ → Except String σ` (`.error` models a Go
  non-nil error return; the model's decoders change state only on
  success, as the concrete decoders in option.go do).
* Go panics (configuration errors) are modelled as `Except.error` results
  of `validate` / `setDefaults`, kept separate from decode errors, which
  travel in the `err` component of a parse result.
* Go pointer identity of `*Option` (used for the seen-set) is modelled by
  an `id` field; distinct declared options carry distinct ids.
* The `for i := 0; i < len(args); i++` loop of `parseArgs` mutates and
  splices `args`; positions left of the cursor are never read again
  except for the current token itself, so the loop is modelled as a
  recursion over the remaining suffix of the argument list, with the
  current (possibly rewritten) token reported alongside.  The loop is
  driven by a fuel argument; `parseArgs` supplies `tokensWeight args + 1`
  fuel, which is proved sufficient (`parseLoop_fuel_irrelevant` shows the
  result does not depend on the fuel above the token weight, so the
  artificial out-of-fuel case is unreachable).
-/

namespace Writ


/-- Go environment: `os.Getenv` returns `""` for unset variables. -/
abbrev Env : Type := String → String

/-- Model of Go `strings.HasPrefix`. -/
def hasPfx (s p : String) : Bool := p.data.isPrefixOf s.data

/-- Model of Go `strings.TrimPrefix`. -/
def trimPfx (s p : String) : String :=
  if hasPfx s p then ⟨s.data.drop p.data.length⟩ else s

/-- Model of Go `strings.SplitN(s, "=", 2)` applied to the character list:
`none` when no `'='` occurs, otherwise the parts left and right of the
first `'='`. -/
def splitFirstEqAux : List Char → Option (List Char × List Char)
  | [] => none
  | c :: rest =>
    if c = '=' then some ([], rest)
    else
      match splitFirstEqAux rest with
      | some (l, r) => some (c :: l, r)
      | none => none

/-- Model of Go `strings.SplitN(s, "=", 2)`: the name part, plus the
inline value when an `'='` is present. -/
def splitFirstEq (s : String) : String × Option String :=
  match splitFirstEqAux s.data with
  | some (l, r) => (⟨l⟩, some ⟨r⟩)
  | none => (s, none)

/-- Model of Go `strings.SplitN(s, "", 2)` as used by processShortOption:
the first rune as the candidate name, and the remaining tail when
non-empty.  (The empty-string case is unreachable from parseArgs, which
filters the bare "-" token beforehand.) -/
def splitHead (s : String) : String × Option String :=
  match s.data with
  | [] => ("", none)
  | [c] => (⟨[c]⟩, none)
  | c :: rest => (⟨[c]⟩, some ⟨rest⟩)

/-- The Latin-1 portion of Go `unicode.IsSpace` (the name/alias
whitespace check of command.go).  The claims and tests only exercise
ASCII whitespace. -/
def unicodeIsSpace (c : Char) : Bool :=
  c = ' ' || c = '\t' || c = '\n' || c = '\x0b' || c = '\x0c' || c = '\r' ||
  c = '\x85' || c = '\xa0'

/-- Go `writ.OptionDecoder` together with the optional `OptionDefaulter`
capability (a Go type assertion `Decoder.(OptionDefaulter)`; `none`
models a decoder that does not implement the interface).  `SetDefaultFn`
receives the environment because the envDefaulter variant reads it;
its `.error` result models a Go panic inside SetDefault. -/
structure OptionDecoder (σ : Type) where
  Decode : String → σ → Except String σ
  SetDefaultFn : Option (Env → σ → Except String σ)

/-- Go `writ.Option` (named `WOption` here because `Option` is taken by
Lean's core type).  `id` models Go pointer identity of `*Option`, the
key of the parseArgs seen-map.  The display-only Description and
Placeholder fields are omitted. -/
structure WOption (σ : Type) where
  id : Nat
  Names : List String
  Flag : Bool
  Plural : Bool
  Decoder : OptionDecoder σ

/-- Go `writ.Command`.  The display-only Help and Description fields are
omitted; they do not affect parsing. -/
structure Command (σ : Type) where
  Name : String
  Aliases : List String
  Options : List (WOption σ)
  Subcommands : List (Command σ)

/-- Go `writ.Path`: the parsed command list returned by Decode. -/
abbrev Path (σ : Type) : Type := List (Command σ)

/-- Go `Command.Subcommand`: first subcommand whose name or any alias
matches. -/
def Command.Subcommand (c : Command σ) (name : String) : Option (Command σ) :=
  c.Subcommands.find? (fun sub => sub.Name = name || sub.Aliases.any (· = name))

/-- Go `Command.Option` (renamed: `Command.Option` would clash with the
core `Option` type inside this namespace; the spec calls this operation
findNamedOption): first option one of whose names matches.  Searches
only the receiver, never subcommands. -/
def Command.findNamedOption (c : Command σ) (name : String) : Option (WOption σ) :=
  c.Options.find? (fun o => o.Names.any (· = name))

/-- Go `Path.findOption`: searches the path from its last element
backward to the root (nearest ancestor wins), hence the reversal. -/
def Path.findOption (p : Path σ) (name : String) : Option (WOption σ) :=
  p.reverse.findSome? (fun c => c.findNamedOption name)

/-- Go `processLongOption`.  The current token `a` keeps its `--` prefix;
`tailArgs` is the argument list after the current token.  On success the
function returns the matched option, the current token as it stands in
the (possibly spliced) argument list, the new tail (with a consumed
next-token argument spliced out, exactly as command.go rebuilds newargs),
and the decoder-updated state. -/
def processLongOption (path : Path σ) (a : String) (tailArgs : List String)
    (st : σ) : Except String (WOption σ × String × List String × σ) :=
  let keyval := splitFirstEq (trimPfx a "--")
  match path.findOption keyval.1 with
  | none => .error ("option '--" ++ keyval.1 ++ "' is not recognized")
  | some opt =>
    if opt.Flag then
      match keyval.2 with
      | some _ => .error ("flag '--" ++ keyval.1 ++ "' does not accept an argument")
      | none => (opt.Decoder.Decode "" st).map (fun st' => (opt, a, tailArgs, st'))
    else
      match keyval.2 with
      | some v => (opt.Decoder.Decode v st).map (fun st' => (opt, a, tailArgs, st'))
      | none =>
        match tailArgs with
        | [] => .error ("option '--" ++ keyval.1 ++ "' requires an argument")
        | next :: restTail =>
          (opt.Decoder.Decode next st).map (fun st' => (opt, a, restTail, st'))

/-- Go `processShortOption`.  For a flag with an aggregated tail the
current token is rewritten to `-<name>` and `-<tail>` is pushed back in
front of the remaining arguments, exactly as command.go rebuilds
newargs.  For a non-flag, a non-empty tail is the argument itself;
otherwise the next token is consumed and spliced out. -/
def processShortOption (path : Path σ) (a : String) (tailArgs : List String)
    (st : σ) : Except String (WOption σ × String × List String × σ) :=
  let keyval := splitHead (trimPfx a "-")
  match path.findOption keyval.1 with
  | none => .error ("option '-" ++ keyval.1 ++ "' is not recognized")
  | some opt =>
    if opt.Flag then
      match opt.Decoder.Decode "" st with
      | .error e => .error e
      | .ok st' =>
        match keyval.2 with
        | some t => .ok (opt, "-" ++ keyval.1, ("-" ++ t) :: tailArgs, st')
        | none => .ok (opt, a, tailArgs, st')
    else
      match keyval.2 with
      | some t => (opt.Decoder.Decode t st).map (fun st' => (opt, a, tailArgs, st'))
      | none =>
        match tailArgs with
        | [] => .error ("option '-" ++ keyval.1 ++ "' requires an argument")
        | next :: restTail =>
          (opt.Decoder.Decode next st).map (fun st' => (opt, a, restTail, st'))

/-- Go `processOption`: dispatch on the `--` prefix. -/
def processOption (path : Path σ) (a : String) (tailArgs : List String)
    (st : σ) : Except String (WOption σ × String × List String × σ) :=
  if hasPfx a "--" then processLongOption path a tailArgs st
  else processShortOption path a tailArgs st

/-- Weight of the remaining argument list: each token counts its length
plus one.  Every iteration of the Go loop strictly decreases this
quantity (tail reinsertion trades one token for a token one rune
shorter), so it bounds the number of iterations. -/
def tokensWeight (l : List String) : Nat := (l.map (fun s => s.data.length + 1)).sum

/-- The body of Go `parseArgs`'s scan loop, as a recursion over the
remaining argument suffix `rest`.  `path`, `positional`, `seen`
(`map[*Option]bool`, as a list of option ids), `parseCmd` and `parseOpt`
are the loop state of command.go.  The result carries the Go named
returns (path, positional, err) — on error the partially accumulated
path and positional are returned, as in Go — together with the final
destination state.  `fuel` bounds the iteration count; `parseArgs`
supplies enough for the loop never to hit the artificial 0 case
(`parseLoop_fuel_sufficient`). -/
def parseLoop (path : Path σ) (positional : List String) (seen : List Nat)
    (parseCmd parseOpt : Bool) (st : σ) :
    Nat → List String → (Path σ × List String × Option String) × σ
  | 0, _ => ((path, positional, some "model: out of fuel"), st)
  | _, [] => ((path, positional, none), st)
  | fuel + 1, a :: rest =>
    match (if parseCmd then (path.getLast?.bind (fun last => last.Subcommand a)) else none) with
    | some subcmd =>
      parseLoop (path ++ [subcmd]) positional seen parseCmd parseOpt st fuel rest
    | none =>
      if parseOpt && hasPfx a "-" then
        if a = "-" then
          parseLoop path (positional ++ [a]) seen false parseOpt st fuel rest
        else if a = "--" then
          parseLoop path positional seen false false st fuel rest
        else
          match processOption path a rest st with
          | .error e => ((path, positional, some e), st)
          | .ok (opt, cur, newrest, st') =>
            if seen.contains opt.id && !opt.Plural then
              ((path, positional,
                some ("option \"" ++ cur ++ "\" specified too many times")), st')
            else
              parseLoop path positional (opt.id :: seen) parseCmd parseOpt st' fuel newrest
      else
        parseLoop path (positional ++ [a]) seen false parseOpt st fuel rest

/-- Go `parseArgs`: path starts as `[c]`, positional starts empty (never
nil), the seen-set empty, and both parse flags true. -/
def parseArgs (c : Command σ) (args : List String) (st : σ) :
    (Path σ × List String × Option String) × σ :=
  parseLoop [c] [] [] true true st (tokensWeight args + 1) args

/-- The name loop of Go `Option.validate`: blank, then leading '-', then
whitespace, per name in order. -/
def checkOptionNames : List String → Except String Unit
  | [] => .ok ()
  | n :: rest =>
    if n = "" then .error "Option names cannot be blank"
    else if hasPfx n "-" then
      .error ("Option names cannot begin with '-' (option " ++ n ++ ")")
    else if n.data.any unicodeIsSpace then
      .error ("Option names cannot have spaces (option \"" ++ n ++ "\")")
    else checkOptionNames rest

/-- Go `Option.validate`.  The trailing nil-Decoder check of option.go
always passes in this model, where Decoder is a total field. -/
def WOption.validate (o : WOption σ) : Except String Unit :=
  if o.Names = [] then .error "Options require at least one name"
  else checkOptionNames o.Names

/-- The alias loop of Go `Command.validate`: each alias is checked for a
leading '-' and for whitespace — command.go has no emptiness check for
aliases, unlike for Name. -/
def checkAliases (cname : String) : List String → Except String Unit
  | [] => .ok ()
  | a :: rest =>
    if hasPfx a "-" then
      .error ("Command aliases cannot begin with '-' (command " ++ cname ++ ", alias " ++ a ++ ")")
    else if a.data.any unicodeIsSpace then
      .error ("Command aliases cannot have spaces (command " ++ cname ++ ", alias \"" ++ a ++ "\")")
    else checkAliases cname rest

/-- The `seen` map insertions of Go `Command.validate`: fail on a name
already recorded, otherwise accumulate.  `kind` is "command" or
"option", matching the two duplicate-name messages. -/
def addSeenNames (kind : String) (seen : List String) :
    List String → Except String (List String)
  | [] => .ok seen
  | n :: rest =>
    if seen.contains n then
      .error (kind ++ " names must be unique (" ++ n ++ " is specified multiple times)")
    else addSeenNames kind (n :: seen) rest

/-- The option loop of Go `Command.validate`: validate each option, then
record its names in the shared seen map. -/
def checkOptions : List (WOption σ) → List String → Except String Unit
  | [], _ => .ok ()
  | o :: rest, seen =>
    match o.validate with
    | .error e => .error e
    | .ok _ =>
      match addSeenNames "option" seen o.Names with
      | .error e => .error e
      | .ok seen' => checkOptions rest seen'

mutual

/-- Go `Command.validate`: own name checks, alias checks, recursive
subcommand validation with name+alias uniqueness, then option validation
with name uniqueness.  `.error` models the Go panic. -/
def Command.validate (c : Command σ) : Except String Unit :=
  if c.Name = "" then .error "Command name cannot be empty"
  else if hasPfx c.Name "-" then
    .error ("Command names cannot begin with '-' (command " ++ c.Name ++ ")")
  else if c.Name.data.any unicodeIsSpace then
    .error ("Command names cannot have spaces (command \"" ++ c.Name ++ "\")")
  else
    match checkAliases c.Name c.Aliases with
    | .error e => .error e
    | .ok _ =>
      match checkSubcommands c.Subcommands [] with
      | .error e => .error e
      | .ok _ => checkOptions c.Options []
termination_by sizeOf c
decreasing_by cases c; simp

/-- The subcommand loop of Go `Command.validate`: validate each
subcommand, then record its aliases and name (in that order, matching
`append(sub.Aliases, sub.Name)`) in the shared seen map. -/
def checkSubcommands : List (Command σ) → List String → Except String Unit
  | [], _ => .ok ()
  | sub :: rest, seen =>
    match sub.validate with
    | .error e => .error e
    | .ok _ =>
      match addSeenNames "command" seen (sub.Aliases ++ [sub.Name]) with
      | .error e => .error e
      | .ok seen' => checkSubcommands rest seen'
termination_by l _ => sizeOf l
decreasing_by all_goals (simp <;> omega)

end


/-- The option loop of Go `Command.setDefaults`: the Go type assertion
`opt.Decoder.(OptionDefaulter)` is the `SetDefaultFn` capability;
`.error` models a panic raised inside SetDefault. -/
def optionsSetDefaults : List (WOption σ) → Env → σ → Except String σ
  | [], _, st => .ok st
  | o :: rest, env, st =>
    match o.Decoder.SetDefaultFn with
    | none => optionsSetDefaults rest env st
    | some f =>
      match f env st with
      | .error e => .error e
      | .ok st' => optionsSetDefaults rest env st'

mutual

/-- Go `Command.setDefaults`: own options first, then subcommands,
depth-first in declaration order. -/
def Command.setDefaults (c : Command σ) (env : Env) (st : σ) : Except String σ :=
  match optionsSetDefaults c.Options env st with
  | .error e => .error e
  | .ok st1 => subsSetDefaults c.Subcommands env st1
termination_by sizeOf c
decreasing_by cases c; simp

/-- The subcommand loop of Go `Command.setDefaults`. -/
def subsSetDefaults : List (Command σ) → Env → σ → Except String σ
  | [], _, st => .ok st
  | sub :: rest, env, st =>
    match sub.setDefaults env st with
    | .error e => .error e
    | .ok st' => subsSetDefaults rest env st'
termination_by l _ _ => sizeOf l
decreasing_by all_goals (simp <;> omega)

end


/-- Go `NewDefaulter` (the literal-default decorator `defaulter`):
Decode is forwarded to the wrapped decoder; SetDefault decodes the
stored literal and panics (`.error`) when the literal fails to decode. -/
def NewDefaulter (decoder : OptionDecoder σ) (defaultArg : String) : OptionDecoder σ :=
  { Decode := decoder.Decode,
    SetDefaultFn := some (fun _ st =>
      match decoder.Decode defaultArg st with
      | .ok st' => .ok st'
      | .error _ =>
        .error ("error setting default value: decoder rejected arg \"" ++ defaultArg ++ "\"")) }

/-- Go `NewEnvDefaulter` (the `envDefaulter` decorator): SetDefault reads
the environment variable `key` (Go `os.Getenv` yields `""` when unset);
a non-empty value that decodes successfully wins, otherwise the wrapped
decoder's own SetDefault runs when that capability is present, and
otherwise nothing happens. -/
def NewEnvDefaulter (decoder : OptionDecoder σ) (key : String) : OptionDecoder σ :=
  { Decode := decoder.Decode,
    SetDefaultFn := some (fun env st =>
      let val := env key
      let fallback : Except String σ :=
        match decoder.SetDefaultFn with
        | some f => f env st
        | none => .ok st
      if val = "" then fallback
      else
        match decoder.Decode val st with
        | .ok st' => .ok st'
        | .error _ => fallback) }

/-- Go `Command.Decode`: validate, apply defaults, then parse.  The
outer `Except.error` models the two panic sources (configuration
errors), kept distinct from decode errors, which sit in the
`Option String` component of the parse result. -/
def Command.Decode (c : Command σ) (env : Env) (args : List String) (st : σ) :
    Except String ((Path σ × List String × Option String) × σ) :=
  match c.validate with
  | .error e => .error e
  | .ok _ =>
    match c.setDefaults env st with
    | .error e => .error e
    | .ok st' => .ok (parseArgs c args st')

/-- One decimal digit, as Go strconv reads it. -/
def digitVal (c : Char) : Option Nat :=
  if c.isDigit then some (c.toNat - '0'.toNat) else none

/-- Decimal digit-string accumulation for strconv.ParseInt base 10. -/
def digitsValAux : List Char → Nat → Option Nat
  | [], acc => some acc
  | c :: rest, acc =>
    match digitVal c with
    | none => none
    | some d => digitsValAux rest (acc * 10 + d)

/-- The base-10 syntax of Go `strconv.ParseInt(arg, 10, _)`: an optional
sign followed by at least one decimal digit. -/
def parseDecInt (s : String) : Option Int :=
  match s.data with
  | [] => none
  | ['+'] => none
  | ['-'] => none
  | '+' :: ds => (digitsValAux ds 0).map (fun v => (v : Int))
  | '-' :: ds => (digitsValAux ds 0).map (fun v => -(v : Int))
  | ds => (digitsValAux ds 0).map (fun v => (v : Int))

/-- Go `decodeInt` from option.go for a 64-bit `int` destination:
`strconv.ParseInt(arg, 10, 64)` — invalid-syntax error, then the 64-bit
range check (the destination OverflowInt check is vacuous at width 64). -/
def decodeIntArg (arg : String) : Except String Int :=
  match parseDecInt arg with
  | none => .error ("strconv.ParseInt: parsing \"" ++ arg ++ "\": invalid syntax")
  | some v =>
    if v < -(2 ^ 63) || 2 ^ 63 ≤ v then
      .error ("strconv.ParseInt: parsing \"" ++ arg ++ "\": value out of range")
    else .ok v

/-- The decoder option.go builds for an `int` destination
(`basicDecoder` with `decodeInt`): the decoded value overwrites the
destination. -/
def intDecoder : OptionDecoder Int :=
  { Decode := fun arg _ => decodeIntArg arg, SetDefaultFn := none }

/-- Go map assignment `m[k] = v` on the association-list model of
`map[string]string`: replace the binding in place or append a new one. -/
def mapUpsert : List (String × String) → String → String → List (String × String)
  | [], k, v => [(k, v)]
  | (k', v') :: rest, k, v =>
    if k' = k then (k, v) :: rest else (k', v') :: mapUpsert rest k v

/-- Go `stringMapDecoder.Decode`: split on the first '=' only; error
when no '=' is present (the Go nil-map allocation is invisible in the
association-list model, where the empty map is `[]`). -/
def stringMapDecode (arg : String) (m : List (String × String)) :
    Except String (List (String × String)) :=
  match splitFirstEq arg with
  | (_, none) => .error ("argument \"" ++ arg ++ "\" is not in key=value format")
  | (k, some v) => .ok (mapUpsert m k v)

/-!  Test fixtures: total decoders whose effect is an arbitrary function
`f` on the destination state, so a final state of, say, `f "X" st`
witnesses that the decoder ran exactly once with argument "X". -/

/-- A decoder that always succeeds, applying `f` to the destination
(models the total decoders of option.go, e.g. decodeString or a flag
accumulator, abstractly). -/
def pureDecoder (f : String → σ → σ) : OptionDecoder σ :=
  { Decode := fun s st => .ok (f s st), SetDefaultFn := none }


/-- Fixture for C1: the root→mid→bottom nesting, over a trivial
destination. -/
def bottomCmd : Command Unit := ⟨"bottom", [], [], []⟩

def midCmd : Command Unit := ⟨"mid", [], [], [bottomCmd]⟩

def rootCmd : Command Unit := ⟨"root", [], [], [midCmd]⟩


/-- Fixture for C2: an option named "x" with identity `i` whose decoder
effect is `f`. -/
def xOpt (i : Nat) (f : String → σ → σ) : WOption σ :=
  { id := i, Names := ["x"], Flag := false, Plural := false, Decoder := pureDecoder f }

/-- Fixture for C2: subcommand "mid" declaring its own "x" (effect `g`). -/
def midX (g : String → σ → σ) : Command σ := ⟨"mid", [], [xOpt 2 g], []⟩

/-- Fixture for C2: root declaring "x" (effect `f`), with subcommand
"mid" declaring its own "x" (effect `g`). -/
def rootX (f g : String → σ → σ) : Command σ := ⟨"root", [], [xOpt 1 f], [midX g]⟩

/-- Fixture for C2: root without an "x" option, subcommand "mid" with
one. -/
def rootNoX (g : String → σ → σ) : Command σ := ⟨"root", [], [], [midX g]⟩


/-- Fixture for C3: a single option answering to the short name "x" and
the long name "opt", plural or not per `pl`, decoder effect `f`. -/
def xoOpt (pl : Bool) (f : String → σ → σ) : WOption σ :=
  { id := 1, Names := ["x", "opt"], Flag := false, Plural := pl, Decoder := pureDecoder f }

/-- Fixture for C3: root command owning only `xoOpt`. -/
def rootXO (pl : Bool) (f : String → σ → σ) : Command σ := ⟨"root", [], [xoOpt pl f], []⟩


/-- Fixture for C4: a non-flag option with long name "opt" and
single-character name "o", decoder effect `f`. -/
def eqOpt (f : String → σ → σ) : WOption σ :=
  { id := 1, Names := ["o", "opt"], Flag := false, Plural := false, Decoder := pureDecoder f }

/-- Fixture for C4: root command owning only `eqOpt`. -/
def rootEq (f : String → σ → σ) : Command σ := ⟨"root", [], [eqOpt f], []⟩


/-- Fixture for C6: a flag named "b" (decoder effect `g`), declared on
subcommand "a" so that the tokens after `--` have both an option and a
subcommand they would otherwise match. -/
def bOpt (g : String → σ → σ) : WOption σ :=
  { id := 1, Names := ["b"], Flag := true, Plural := false, Decoder := pureDecoder g }

/-- Fixture for C6: the "subcmd" subcommand that must NOT be entered. -/
def subcmdC6 (σ : Type) : Command σ := ⟨"subcmd", [], [], []⟩

/-- Fixture for C6: subcommand "a" declaring flag "b" and subcommand
"subcmd". -/
def aCmd (σ : Type) (g : String → σ → σ) : Command σ :=
  ⟨"a", [], [bOpt g], [subcmdC6 σ]⟩

/-- Fixture for C6: root with subcommand "a". -/
def rootTerm (σ : Type) (g : String → σ → σ) : Command σ :=
  ⟨"root", [], [], [aCmd σ g]⟩


/-- Fixture for C10: a non-plural flag "h" with decoder effect `g`. -/
def hOpt (g : String → σ → σ) : WOption σ :=
  { id := 1, Names := ["h"], Flag := true, Plural := false, Decoder := pureDecoder g }

/-- Fixture for C10: root command owning only `hOpt`. -/
def rootH (g : String → σ → σ) : Command σ := ⟨"root", [], [hOpt g], []⟩


/-- Fixture for C5: a flag "v" with no effect on the trivial
destination. -/
def vFlag : WOption Unit :=
  { id := 1, Names := ["v"], Flag := true, Plural := false,
    Decoder := pureDecoder (fun _ st => st) }

/-- Fixture for C5: the subcommand matched AFTER an option token. -/
def subC5 : Command Unit := ⟨"sub", [], [], []⟩

/-- Fixture for C5: root declaring flag "v" and subcommand "sub". -/
def rootC5 : Command Unit := ⟨"root", [], [vFlag], [subC5]⟩

/-- Fixture for C5: root declaring only subcommand "sub". -/
def rootC5b : Command Unit := ⟨"root", [], [], [subC5]⟩


/-- Fixture for C7: an int option "n" whose decoder is an
environment-defaulter (variable MYVAR) wrapping a literal-defaulter
(literal "7") wrapping the plain int decoder. -/
def envIntOpt : WOption Int :=
  { id := 1, Names := ["n"], Flag := false, Plural := false,
    Decoder := NewEnvDefaulter (NewDefaulter intDecoder "7") "MYVAR" }

/-- Fixture for C7: root command owning only `envIntOpt`. -/
def rootEnv : Command Int := ⟨"root", [], [envIntOpt], []⟩

/-- Fixture for C7: the same option with the bare int decoder (no
defaulting decorators). -/
def plainIntOpt : WOption Int :=
  { id := 1, Names := ["n"], Flag := false, Plural := false, Decoder := intDecoder }

/-- Fixture for C7: root command owning only `plainIntOpt`. -/
def rootPlain : Command Int := ⟨"root", [], [plainIntOpt], []⟩

/-- Fixture for the C7 witness: MYVAR set to a decodable value. -/
def envSet : Env := fun k => if k = "MYVAR" then "42" else ""

/-- Fixture for the C7 witness: MYVAR set to an undecodable value. -/
def envBad : Env := fun k => if k = "MYVAR" then "bogus" else ""


/-- Fixture for C9: a command whose only alias is the empty string. -/
def cmdEmptyAlias : Command Unit := ⟨"c", [""], [], []⟩

/-- Fixture for the C9 witness: a validated command with a normal
alias. -/
def cmdAliased : Command Unit := ⟨"c", ["al"], [], []⟩

/-!  Step lemmas: one per branch of the Go scan loop, for reasoning
about `parseLoop` on partially symbolic commands. -/

/-- An exhausted argument list ends the scan. -/
theorem parseLoop_done (path : Path σ) (pos : List String) (seen : List Nat)
    (pc po : Bool) (st : σ) (fuel : Nat) :
    parseLoop path pos seen pc po st (fuel + 1) [] = ((path, pos, none), st) := by
  simp [parseLoop]

/-- Step 1 of the scan: a token matching a subcommand of the last path
element extends the path and is fully consumed. -/
theorem parseLoop_subcmd (path : Path σ) (pos : List String) (seen : List Nat)
    (po : Bool) (st : σ) (fuel : Nat) (a : String) (rest : List String)
    (last sub : Command σ)
    (hlast : path.getLast? = some last) (hsub : last.Subcommand a = some sub) :
    parseLoop path pos seen true po st (fuel + 1) (a :: rest) =
      parseLoop (path ++ [sub]) pos seen true po st fuel rest := by
  simp [parseLoop, hlast, hsub]

/-- Step 3 of the scan: a token that matches no subcommand and is not an
option token becomes positional and permanently disables subcommand
matching. -/
theorem parseLoop_positional (path : Path σ) (pos : List String) (seen : List Nat)
    (pc po : Bool) (st : σ) (fuel : Nat) (a : String) (rest : List String)
    (hno : (if pc then path.getLast?.bind (fun l => l.Subcommand a) else none) = none)
    (hopt : (po && hasPfx a "-") = false) :
    parseLoop path pos seen pc po st (fuel + 1) (a :: rest) =
      parseLoop path (pos ++ [a]) seen false po st fuel rest := by
  simp only [parseLoop, hno, hopt]
  rfl

/-- The `--` terminator: consumed, disabling both option and subcommand
matching. -/
theorem parseLoop_terminator (path : Path σ) (pos : List String) (seen : List Nat)
    (pc : Bool) (st : σ) (fuel : Nat) (rest : List String)
    (hno : (if pc then path.getLast?.bind (fun l => l.Subcommand "--") else none) = none) :
    parseLoop path pos seen pc true st (fuel + 1) ("--" :: rest) =
      parseLoop path pos seen false false st fuel rest := by
  simp only [parseLoop, hno]
  rfl

/-- Step 2 of the scan, first-sighting case: the option is processed and
recorded in the seen-set; subcommand matching is NOT disabled. -/
theorem parseLoop_option (path : Path σ) (pos : List String) (seen : List Nat)
    (pc : Bool) (st st' : σ) (fuel : Nat) (a cur : String)
    (rest newrest : List String) (opt : WOption σ)
    (hno : (if pc then path.getLast?.bind (fun l => l.Subcommand a) else none) = none)
    (hpfx : hasPfx a "-" = true) (h1 : a ≠ "-") (h2 : a ≠ "--")
    (hproc : processOption path a rest st = .ok (opt, cur, newrest, st'))
    (hseen : opt.id ∉ seen ∨ opt.Plural = true) :
    parseLoop path pos seen pc true st (fuel + 1) (a :: rest) =
      parseLoop path pos (opt.id :: seen) pc true st' fuel newrest := by
  simp [parseLoop, hno, hpfx, h1, h2, hproc]
  intro hmem hpl
  rcases hseen with h | h
  · exact absurd hmem h
  · rw [h] at hpl
    exact Bool.noConfusion hpl

/-- Step 2 of the scan, repetition case: a non-plural option already in
the seen-set fails, naming the current (possibly rewritten) token; the
offending occurrence has already been decoded (the state is `st'`). -/
theorem parseLoop_option_repeat (path : Path σ) (pos : List String) (seen : List Nat)
    (pc : Bool) (st st' : σ) (fuel : Nat) (a cur : String)
    (rest newrest : List String) (opt : WOption σ)
    (hno : (if pc then path.getLast?.bind (fun l => l.Subcommand a) else none) = none)
    (hpfx : hasPfx a "-" = true) (h1 : a ≠ "-") (h2 : a ≠ "--")
    (hproc : processOption path a rest st = .ok (opt, cur, newrest, st'))
    (hmem : opt.id ∈ seen) (hpl : opt.Plural = false) :
    parseLoop path pos seen pc true st (fuel + 1) (a :: rest) =
      ((path, pos, some ("option \"" ++ cur ++ "\" specified too many times")), st') := by
  simp [parseLoop, hno, hpfx, h1, h2, hproc]
  intro h
  have hpl' := h hmem
  rw [hpl] at hpl'
  exact Bool.noConfusion hpl'

/-- Step 2 of the scan, failure case: a resolution or decode error from
processOption aborts the call. -/
theorem parseLoop_option_err (path : Path σ) (pos : List String) (seen : List Nat)
    (pc : Bool) (st : σ) (fuel : Nat) (a e : String) (rest : List String)
    (hno : (if pc then path.getLast?.bind (fun l => l.Subcommand a) else none) = none)
    (hpfx : hasPfx a "-" = true) (h1 : a ≠ "-") (h2 : a ≠ "--")
    (hproc : processOption path a rest st = .error e) :
    parseLoop path pos seen pc true st (fuel + 1) (a :: rest) =
      ((path, pos, some e), st) := by
  simp [parseLoop, hno, hpfx, h1, h2, hproc]

/-!  Fuel adequacy: the Go loop terminates because every iteration
strictly shrinks the summed token weight; correspondingly `parseLoop`
is insensitive to the fuel argument above that weight, so the
`tokensWeight args + 1` supplied by `parseArgs` never runs out. -/

theorem tokensWeight_cons (a : String) (l : List String) :
    tokensWeight (a :: l) = a.data.length + 1 + tokensWeight l := by
  simp [tokensWeight]

theorem exceptMap_ok {ε α β : Type} (f : α → β) (x : Except ε α) (y : β)
    (h : x.map f = .ok y) : ∃ z, x = .ok z ∧ y = f z := by
  cases x with
  | error e => simp [Except.map] at h
  | ok z => exact ⟨z, rfl, by simpa [Except.map] using h.symm⟩

theorem hasPfx_dash_data (a : String) (h : hasPfx a "-" = true) :
    ∃ tl, a.data = '-' :: tl := by
  rw [hasPfx] at h
  cases ha : a.data with
  | nil => rw [ha] at h; simp [List.isPrefixOf] at h
  | cons c tl =>
    rw [ha] at h
    simp [List.isPrefixOf] at h
    exact ⟨tl, by rw [← h]⟩

theorem splitHead_some_len (s t : String) (h : (splitHead s).2 = some t) :
    s.data.length = 1 + t.data.length := by
  unfold splitHead at h
  rcases hs : s.data with _ | ⟨c, _ | ⟨d, r⟩⟩ <;> rw [hs] at h <;> simp at h
  rw [← h]
  simp
  omega

theorem trimPfx_dash_data (a : String) (tl : List Char) (ha : a.data = '-' :: tl) :
    (trimPfx a "-").data = tl := by
  have hp : hasPfx a "-" = true := by
    rw [hasPfx, ha]
    simp [List.isPrefixOf]
  simp [trimPfx, hp, ha]

theorem dash_append_data (t : String) : ("-" ++ t).data = '-' :: t.data := by
  cases t
  rfl

/-- A successful processLongOption leaves the tail unchanged or splices
out exactly the consumed next token. -/
theorem processLongOption_shape {σ : Type} (path : Path σ) (a : String)
    (tailArgs : List String) (st st' : σ) (opt : WOption σ) (cur : String)
    (newrest : List String)
    (h : processLongOption path a tailArgs st = .ok (opt, cur, newrest, st')) :
    newrest = tailArgs ∨
      ∃ next restTail, tailArgs = next :: restTail ∧ newrest = restTail := by
  simp only [processLongOption] at h
  repeat' split at h
  all_goals try exact Except.noConfusion h
  all_goals obtain ⟨z, hz, hy⟩ := exceptMap_ok _ _ _ h
  all_goals simp only [Prod.mk.injEq] at hy
  · exact Or.inl hy.2.2.1
  · exact Or.inl hy.2.2.1
  · exact Or.inr ⟨_, _, rfl, hy.2.2.1⟩

/-- A successful processShortOption leaves the tail unchanged, splices
out the consumed next token, or pushes back the shortened aggregate
tail. -/
theorem processShortOption_shape {σ : Type} (path : Path σ) (a : String)
    (tailArgs : List String) (st st' : σ) (opt : WOption σ) (cur : String)
    (newrest : List String)
    (h : processShortOption path a tailArgs st = .ok (opt, cur, newrest, st')) :
    newrest = tailArgs
  ∨ (∃ next restTail, tailArgs = next :: restTail ∧ newrest = restTail)
  ∨ (∃ t, (splitHead (trimPfx a "-")).2 = some t ∧ newrest = ("-" ++ t) :: tailArgs) := by
  simp only [processShortOption] at h
  repeat' split at h
  all_goals try exact Except.noConfusion h
  · simp only [Except.ok.injEq, Prod.mk.injEq] at h
    exact Or.inr (Or.inr ⟨_, by assumption, h.2.2.1.symm⟩)
  · simp only [Except.ok.injEq, Prod.mk.injEq] at h
    exact Or.inl h.2.2.1.symm
  · obtain ⟨z, hz, hy⟩ := exceptMap_ok _ _ _ h
    simp only [Prod.mk.injEq] at hy
    exact Or.inl hy.2.2.1
  · obtain ⟨z, hz, hy⟩ := exceptMap_ok _ _ _ h
    simp only [Prod.mk.injEq] at hy
    exact Or.inr (Or.inl ⟨_, _, rfl, hy.2.2.1⟩)

/-- Every successful option step strictly decreases the summed token
weight of the remaining argument list (the aggregate push-back trades
the current token for one exactly one rune shorter). -/
theorem processOption_weight {σ : Type} (path : Path σ) (a : String)
    (tailArgs : List String) (st st' : σ) (opt : WOption σ) (cur : String)
    (newrest : List String)
    (hpfx : hasPfx a "-" = true)
    (h : processOption path a tailArgs st = .ok (opt, cur, newrest, st')) :
    tokensWeight newrest < tokensWeight (a :: tailArgs) := by
  unfold processOption at h
  split at h
  · rcases processLongOption_shape path a tailArgs st st' opt cur newrest h with
      h1 | ⟨next, restTail, hT, h2⟩
    · subst h1
      rw [tokensWeight_cons]
      omega
    · subst hT
      subst h2
      rw [tokensWeight_cons, tokensWeight_cons]
      omega
  · rcases processShortOption_shape path a tailArgs st st' opt cur newrest h with
      h1 | ⟨next, restTail, hT, h2⟩ | ⟨t, hsome, h3⟩
    · subst h1
      rw [tokensWeight_cons]
      omega
    · subst hT
      subst h2
      rw [tokensWeight_cons, tokensWeight_cons]
      omega
    · subst h3
      obtain ⟨tl, ha⟩ := hasPfx_dash_data a hpfx
      have h1 := trimPfx_dash_data a tl ha
      have h2 := splitHead_some_len _ t hsome
      rw [h1] at h2
      rw [tokensWeight_cons, tokensWeight_cons, dash_append_data t, ha]
      simp only [List.length_cons]
      omega

/-- Above the token weight of the remaining arguments, the scan result
does not depend on the fuel: the artificial out-of-fuel case is
unreachable for the `tokensWeight args + 1` supplied by `parseArgs`. -/
theorem parseLoop_fuel_irrelevant {σ : Type} :
    ∀ (fuel fuel' : Nat) (path : Path σ) (pos : List String) (seen : List Nat)
      (pc po : Bool) (st : σ) (rest : List String),
      tokensWeight rest < fuel → tokensWeight rest < fuel' →
      parseLoop path pos seen pc po st fuel rest =
        parseLoop path pos seen pc po st fuel' rest := by
  intro fuel
  induction fuel with
  | zero => intro fuel' path pos seen pc po st rest h h'; omega
  | succ n ih =>
    intro fuel' path pos seen pc po st rest h h'
    cases fuel' with
    | zero => omega
    | succ m =>
      cases rest with
      | nil => rfl
      | cons a rest' =>
        rw [tokensWeight_cons] at h h'
        simp only [parseLoop]
        split
        · apply ih <;> omega
        · split
          · split
            · apply ih <;> omega
            · split
              · apply ih <;> omega
              · rename_i hcond h1 h2
                split
                · rfl
                · rename_i opt cur newrest st'' heq
                  split
                  · rfl
                  · have hpfx : hasPfx a "-" = true :=
                      ((Bool.and_eq_true _ _).mp hcond).2
                    have hw := processOption_weight path a rest' st st'' opt cur
                      newrest hpfx heq
                    rw [tokensWeight_cons] at hw
                    apply ih <;> omega
          · apply ih <;> omega

/-- `parseArgs` computes the same result with any sufficient fuel. -/
theorem parseArgs_fuel_any {σ : Type} (c : Command σ) (args : List String)
    (st : σ) (fuel : Nat) (h : tokensWeight args < fuel) :
    parseArgs c args st = parseLoop [c] [] [] true true st fuel args :=
  parseLoop_fuel_irrelevant (tokensWeight args + 1) fuel [c] [] [] true true st
    args (by omega) h

/-- C1: subcommand matching consumes only a contiguous prefix of
matching tokens.  For any validated tree whose root has a subcommand
answering to "mid" while that subcommand has no subcommand answering to
"foo", Decode on ["mid", "foo", "bottom"] returns Path [root, mid] and
positional ["foo", "bottom"]: the unmatched positional token "foo" ends
subcommand detection, so "bottom" is never matched as a subcommand. -/
theorem claimC1 {σ : Type} (root mid : Command σ) (env : Env) (st st0 : σ)
    (hval : root.validate = .ok ())
    (hdef : root.setDefaults env st = .ok st0)
    (hmid : root.Subcommand "mid" = some mid)
    (hfoo : mid.Subcommand "foo" = none) :
    root.Decode env ["mid", "foo", "bottom"] st =
      .ok (([root, mid], ["foo", "bottom"], none), st0) := by
  simp only [Command.Decode, hval, hdef, parseArgs]
  rw [show tokensWeight ["mid", "foo", "bottom"] = 15 by decide]
  rw [parseLoop_subcmd [root] _ _ _ _ _ _ _ root mid rfl hmid]
  simp only [List.cons_append, List.nil_append]
  rw [show (15 : Nat) = 14 + 1 by decide]
  rw [parseLoop_positional _ _ _ _ _ _ _ _ _ (by simp [hfoo]) (by decide)]
  simp only [List.nil_append]
  rw [show (14 : Nat) = 13 + 1 by decide]
  rw [parseLoop_positional _ _ _ _ _ _ _ _ _ (by simp) (by decide)]
  rw [show (13 : Nat) = 12 + 1 by decide]
  rw [parseLoop_done]
  simp

/-- Witness for C1 at the concrete root→mid→bottom fixture. -/
theorem claimC1_witness :
    rootCmd.Decode (fun _ => "") ["mid", "foo", "bottom"] () =
      .ok (([rootCmd, midCmd], ["foo", "bottom"], none), ()) := by
  have hval : rootCmd.validate = .ok () := by
    simp [Command.validate, checkAliases, checkSubcommands, checkOptions,
      addSeenNames, hasPfx, unicodeIsSpace, rootCmd, midCmd, bottomCmd]
  have hdef : rootCmd.setDefaults (fun _ => "") () = .ok () := by
    simp [Command.setDefaults, subsSetDefaults, optionsSetDefaults,
      rootCmd, midCmd, bottomCmd]
  exact claimC1 rootCmd midCmd (fun _ => "") () () hval hdef (by rfl) (by rfl)

/-- C2: option names resolve nearest-ancestor-wins against the current
path, never against not-yet-entered subcommands.  With both root and mid
declaring "x", `["--x","1","mid"]` decodes onto root's x (effect `f`),
`["mid","--x","1"]` decodes onto mid's x (effect `g`), and when only the
not-yet-entered mid declares "x", `["--x","1","mid"]` fails with the
unrecognized-option error, leaving the destination untouched. -/
theorem claimC2 {σ : Type} (f g : String → σ → σ) (st : σ) :
    parseArgs (rootX f g) ["--x", "1", "mid"] st =
      (([rootX f g, midX g], [], none), f "1" st)
  ∧ parseArgs (rootX f g) ["mid", "--x", "1"] st =
      (([rootX f g, midX g], [], none), g "1" st)
  ∧ parseArgs (rootNoX g) ["--x", "1", "mid"] st =
      (([rootNoX g], [], some "option '--x' is not recognized"), st) :=
  ⟨rfl, rfl, rfl⟩

/-- C3: matching a non-Plural option a second time — in any combination
of short and long forms of its names — fails with the
specified-too-many-times error naming the repeated token actually
encountered (the second token as it stands in the argument list), while
the same option declared Plural is matched every time, its decoder
running on each match (cumulative final state). -/
theorem claimC3 {σ : Type} (f : String → σ → σ) (st : σ) :
    parseArgs (rootXO false f) ["-x", "1", "-x", "2"] st =
      (([rootXO false f], [], some "option \"-x\" specified too many times"),
        f "2" (f "1" st))
  ∧ parseArgs (rootXO false f) ["-x", "1", "--opt", "2"] st =
      (([rootXO false f], [], some "option \"--opt\" specified too many times"),
        f "2" (f "1" st))
  ∧ parseArgs (rootXO false f) ["--opt=1", "-x2"] st =
      (([rootXO false f], [], some "option \"-x2\" specified too many times"),
        f "2" (f "1" st))
  ∧ parseArgs (rootXO false f) ["--opt", "1", "--opt=2"] st =
      (([rootXO false f], [], some "option \"--opt=2\" specified too many times"),
        f "2" (f "1" st))
  ∧ parseArgs (rootXO true f) ["-x", "1", "--opt=2", "-x3"] st =
      (([rootXO true f], [], none), f "3" (f "2" (f "1" st))) :=
  ⟨rfl, rfl, rfl, rfl, rfl⟩

/-- C4: argument-attachment equivalence.  All four argument vectors
decode identically: the option's decoder runs exactly once with argument
"X" (final state `f "X" st` for arbitrary `f`), the separately supplied
next token is spliced out and never re-scanned (positional output stays
empty), and no error occurs. -/
theorem claimC4 {σ : Type} (f : String → σ → σ) (st : σ) :
    parseArgs (rootEq f) ["--opt=X"] st = (([rootEq f], [], none), f "X" st)
  ∧ parseArgs (rootEq f) ["--opt", "X"] st = (([rootEq f], [], none), f "X" st)
  ∧ parseArgs (rootEq f) ["-oX"] st = (([rootEq f], [], none), f "X" st)
  ∧ parseArgs (rootEq f) ["-o", "X"] st = (([rootEq f], [], none), f "X" st) :=
  ⟨rfl, rfl, rfl, rfl⟩

/-- C6: terminator semantics for `["a", "--", "-b", "subcmd"]`.  The
`--` token is consumed without appearing in any output, and both later
tokens become positional verbatim: "-b" is not matched against the
in-scope flag "b" (the state stays `st`, so `g` never ran) and "subcmd"
is not matched against the in-scope subcommand (the path ends at "a"). -/
theorem claimC6 {σ : Type} (g : String → σ → σ) (st : σ) :
    parseArgs (rootTerm σ g) ["a", "--", "-b", "subcmd"] st =
      (([rootTerm σ g, aCmd σ g], ["-b", "subcmd"], none), st) :=
  rfl

/-- C10: when the repetition rule fires, the offending occurrence has
already been decoded.  On `["-hh"]` the aggregate is split, each "-h"
invokes the decoder (final state `g "" (g "" st)`, two invocations), and
only then does the seen-set check fail, naming the rewritten current
token "-h". -/
theorem claimC10 {σ : Type} (g : String → σ → σ) (st : σ) :
    parseArgs (rootH g) ["-hh"] st =
      (([rootH g], [], some "option \"-h\" specified too many times"),
        g "" (g "" st)) :=
  rfl

/-- Counterexample to C5: "-v" is not a subcommand name of root, yet
after it is consumed as an option the later token "sub" IS still
appended to the Path — an option token does not disable subcommand
matching, contradicting the claim that the first non-subcommand token
of any kind permanently disables it. -/
theorem claimC5_counterexample :
    parseArgs rootC5 ["-v", "sub"] () = (([rootC5, subC5], [], none), ()) :=
  rfl

/-- C5 as amended: subcommand matching is permanently disabled once the
scan sets `parsingSubcommands := false` — which happens at the first
token treated as positional (including the bare "-") or at the `--`
terminator, but NOT at tokens consumed as options.  Formally: (1) from
any state with parseCmd already false, the Path never grows for the
remainder of the scan, whatever the remaining tokens are; (2) a
positional token disables matching, so a later subcommand name stays
positional ("sub" is not entered after positional "x"); (3) an option
token does not disable matching ("sub" IS entered after flag "-v"). -/
theorem claimC5_amended :
    (∀ (σ : Type) (path : Path σ) (pos : List String) (seen : List Nat)
      (po : Bool) (st : σ) (fuel : Nat) (rest : List String),
      ((parseLoop path pos seen false po st fuel rest).1).1 = path)
  ∧ parseArgs rootC5b ["x", "sub"] () = (([rootC5b], ["x", "sub"], none), ())
  ∧ parseArgs rootC5 ["-v", "sub"] () = (([rootC5, subC5], [], none), ()) := by
  refine ⟨?_, rfl, rfl⟩
  intro σ path pos seen po st fuel rest
  induction fuel generalizing pos seen po st rest with
  | zero => cases rest <;> rfl
  | succ n ih =>
    cases rest with
    | nil => rfl
    | cons a rest' =>
      simp only [parseLoop, Bool.false_eq_true, if_false]
      split
      · split
        · apply ih
        · split
          · apply ih
          · split
            · rfl
            · split
              · rfl
              · apply ih
      · apply ih

/-- setDefaults on the env-defaulter fixture always succeeds, whatever
the environment holds (the literal "7" always decodes). -/
theorem rootEnv_setDefaults_ok (env : Env) (st : Int) :
    ∃ n, rootEnv.setDefaults env st = .ok n := by
  have h7 : decodeIntArg "7" = .ok 7 := by rfl
  by_cases hv : env "MYVAR" = ""
  · refine ⟨7, ?_⟩
    simp [Command.setDefaults, subsSetDefaults, optionsSetDefaults, rootEnv,
      envIntOpt, NewEnvDefaulter, NewDefaulter, intDecoder, hv, h7]
  · cases hd : decodeIntArg (env "MYVAR") with
    | ok n =>
      refine ⟨n, ?_⟩
      simp [Command.setDefaults, subsSetDefaults, optionsSetDefaults, rootEnv,
        envIntOpt, NewEnvDefaulter, NewDefaulter, intDecoder, hv, hd]
    | error e =>
      refine ⟨7, ?_⟩
      simp [Command.setDefaults, subsSetDefaults, optionsSetDefaults, rootEnv,
        envIntOpt, NewEnvDefaulter, NewDefaulter, intDecoder, hv, hd, h7]

/-- C7: default layering.  After setDefaults (which Decode runs before
any argument decoding): (1) a set environment variable that decodes
successfully wins; (2) an unset variable (Getenv yields "") falls back
to the literal default 7; (3) a variable whose value fails to decode
falls back to the literal default 7; (4) with neither decorator the
destination keeps its initial (zero) value; (5) an explicit command-line
value overrides whichever default was applied, for every environment. -/
theorem claimC7 :
    (∀ (env : Env) (st : Int) (v : String) (n : Int),
      env "MYVAR" = v → v ≠ "" → decodeIntArg v = .ok n →
        rootEnv.setDefaults env st = .ok n)
  ∧ (∀ (env : Env) (st : Int),
      env "MYVAR" = "" → rootEnv.setDefaults env st = .ok 7)
  ∧ (∀ (env : Env) (st : Int) (e : String),
      decodeIntArg (env "MYVAR") = .error e → rootEnv.setDefaults env st = .ok 7)
  ∧ (∀ (env : Env) (st : Int), rootPlain.setDefaults env st = .ok st)
  ∧ (∀ (env : Env) (st : Int),
      rootEnv.Decode env ["-n", "5"] st = .ok (([rootEnv], [], none), 5)) := by
  have h7 : decodeIntArg "7" = .ok 7 := by rfl
  refine ⟨?_, ?_, ?_, ?_, ?_⟩
  · intro env st v n h0 h1 h2
    simp [Command.setDefaults, subsSetDefaults, optionsSetDefaults, rootEnv,
      envIntOpt, NewEnvDefaulter, NewDefaulter, intDecoder, h0, h1, h2]
  · intro env st h0
    simp [Command.setDefaults, subsSetDefaults, optionsSetDefaults, rootEnv,
      envIntOpt, NewEnvDefaulter, NewDefaulter, intDecoder, h0, h7]
  · intro env st e h0
    by_cases hv : env "MYVAR" = ""
    · simp [Command.setDefaults, subsSetDefaults, optionsSetDefaults, rootEnv,
        envIntOpt, NewEnvDefaulter, NewDefaulter, intDecoder, hv, h7]
    · simp [Command.setDefaults, subsSetDefaults, optionsSetDefaults, rootEnv,
        envIntOpt, NewEnvDefaulter, NewDefaulter, intDecoder, hv, h0, h7]
  · intro env st
    simp [Command.setDefaults, subsSetDefaults, optionsSetDefaults, rootPlain,
      plainIntOpt, intDecoder]
  · intro env st
    have hval : rootEnv.validate = .ok () := by
      simp [Command.validate, checkAliases, checkSubcommands, checkOptions,
        addSeenNames, WOption.validate, checkOptionNames, hasPfx,
        unicodeIsSpace, rootEnv, envIntOpt]
    obtain ⟨n, hn⟩ := rootEnv_setDefaults_ok env st
    simp only [Command.Decode, hval, hn]
    rfl

/-- Witness for C7 at concrete environments: env value 42 wins; unset
falls back to 7; invalid "bogus" falls back to 7; no decorators leaves
the zero value 0; and "-n 5" overrides the env default 42. -/
theorem claimC7_witness :
    rootEnv.setDefaults envSet 0 = .ok 42
  ∧ rootEnv.setDefaults (fun _ => "") 0 = .ok 7
  ∧ rootEnv.setDefaults envBad 0 = .ok 7
  ∧ rootPlain.setDefaults envBad 0 = .ok 0
  ∧ rootEnv.Decode envSet ["-n", "5"] 0 = .ok (([rootEnv], [], none), 5) :=
  ⟨claimC7.1 envSet 0 "42" 42 rfl (by decide) (by rfl),
   claimC7.2.1 (fun _ => "") 0 rfl,
   claimC7.2.2.1 envBad 0 "strconv.ParseInt: parsing \"bogus\": invalid syntax"
     (by rfl),
   claimC7.2.2.2.1 envBad 0,
   claimC7.2.2.2.2 envSet 0⟩


/-- A character list without '=' never splits. -/
theorem splitFirstEqAux_none (l : List Char)
    (h : l.all (fun ch => ch != '=') = true) : splitFirstEqAux l = none := by
  induction l with
  | nil => rfl
  | cons c rest ih =>
    simp only [List.all_cons, Bool.and_eq_true, bne_iff_ne] at h
    simp [splitFirstEqAux, h.1, ih h.2]

/-- C8: map decoding.  "a=b=c" splits on the first '=' only, giving key
"a" and value "b=c"; decoding "a=b" then "a=c" upserts by key, leaving
{"a": "c"}; and any argument without '=' fails with the
not-in-key=value-format error (no map is produced, so the destination
map is untouched). -/
theorem claimC8 :
    stringMapDecode "a=b=c" [] = .ok [("a", "b=c")]
  ∧ stringMapDecode "a=b" [] = .ok [("a", "b")]
  ∧ stringMapDecode "a=c" [("a", "b")] = .ok [("a", "c")]
  ∧ (∀ (arg : String) (m : List (String × String)),
      arg.data.all (fun ch => ch != '=') = true →
        stringMapDecode arg m =
          .error ("argument \"" ++ arg ++ "\" is not in key=value format")) := by
  refine ⟨by rfl, by rfl, by rfl, ?_⟩
  intro arg m h
  simp [stringMapDecode, splitFirstEq, splitFirstEqAux_none arg.data h]

/-- Witness for C8: the no-'=' failure at the concrete argument "abc"
with a non-empty map. -/
theorem claimC8_witness :
    stringMapDecode "abc" [("k", "v")] =
      .error "argument \"abc\" is not in key=value format" :=
  claimC8.2.2.2 "abc" [("k", "v")] (by decide)

/-- Counterexample to C9: a command with an EMPTY alias passes validate
— command.go's alias loop checks only the leading '-' and whitespace,
never emptiness, so no configuration error is raised. -/
theorem claimC9_counterexample : cmdEmptyAlias.validate = .ok () := by
  simp [Command.validate, checkAliases, checkSubcommands, checkOptions,
    hasPfx, unicodeIsSpace, cmdEmptyAlias]

/-- A successful alias check means every alias lacks a leading '-' and
contains no whitespace. -/
theorem checkAliases_ok (cn : String) (l : List String)
    (h : checkAliases cn l = .ok ()) :
    ∀ a ∈ l, hasPfx a "-" = false ∧ a.data.any unicodeIsSpace = false := by
  induction l with
  | nil => intro a ha; exact absurd ha (List.not_mem_nil a)
  | cons b rest ih =>
    rw [checkAliases] at h
    intro a ha
    by_cases h1 : hasPfx b "-" = true
    · rw [if_pos h1] at h
      exact Except.noConfusion h
    · rw [if_neg h1] at h
      by_cases h2 : b.data.any unicodeIsSpace = true
      · rw [if_pos h2] at h
        exact Except.noConfusion h
      · rw [if_neg h2] at h
        rcases List.mem_cons.mp ha with rfl | hrest
        · exact ⟨Bool.not_eq_true _ ▸ h1, Bool.not_eq_true _ ▸ h2⟩
        · exact ih h a hrest

/-- C9 as amended: validate enforces the leading-'-' and whitespace
constraints on every alias, exactly as for Name (any command passing
validate has only dash-free, whitespace-free aliases — contrapositively,
a violating alias always raises the configuration error); but unlike
Name, an empty alias is NOT rejected. -/
theorem claimC9_amended :
    (∀ (σ : Type) (c : Command σ), c.validate = .ok () →
      ∀ a ∈ c.Aliases, hasPfx a "-" = false ∧ a.data.any unicodeIsSpace = false)
  ∧ cmdEmptyAlias.validate = .ok () := by
  constructor
  · intro σ c h a ha
    rw [Command.validate] at h
    by_cases h1 : c.Name = ""
    · rw [if_pos h1] at h
      exact Except.noConfusion h
    · rw [if_neg h1] at h
      by_cases h2 : hasPfx c.Name "-" = true
      · rw [if_pos h2] at h
        exact Except.noConfusion h
      · rw [if_neg h2] at h
        by_cases h3 : c.Name.data.any unicodeIsSpace = true
        · rw [if_pos h3] at h
          exact Except.noConfusion h
        · rw [if_neg h3] at h
          cases hca : checkAliases c.Name c.Aliases with
          | error e => rw [hca] at h; exact Except.noConfusion h
          | ok u => exact checkAliases_ok c.Name c.Aliases (by rw [hca]) a ha
  · simp [Command.validate, checkAliases, checkSubcommands, checkOptions,
      hasPfx, unicodeIsSpace, cmdEmptyAlias]

/-- Witness for C9's amended theorem at the concrete alias "al". -/
theorem claimC9_amended_witness :
    hasPfx "al" "-" = false ∧ "al".data.any unicodeIsSpace = false :=
  claimC9_amended.1 Unit cmdAliased
    (by simp [Command.validate, checkAliases, checkSubcommands, checkOptions,
      hasPfx, unicodeIsSpace, cmdAliased])
    "al" (by simp [cmdAliased])

end Writ
